import Mathlib

/-
Verification of the mc-hook add-on library (Minecraft Bedrock scripting utilities).

The development shallowly embeds the item-pickup tracker (`itemPickup.js`,
the `ItemPickup` singleton), the block-break restore action
(`api/events/blockBreak.js`) and the HTTP shim (`httpReq.js`).

Modelling conventions:
  * A JavaScript `Map` is an association list with unique keys kept in
    insertion order (`mapGet` / `mapSet` below mirror `Map.get` / `Map.set`).
  * An inventory container is a list of slots; each slot is `Option Item`
    (`container.getItem(i)` yields the item or nothing).
  * The host scheduler (`system.runInterval` / `system.clearRun`) is modelled
    by an explicit pool of live handles inside `PickupState`; `runInterval`
    allocates a fresh handle, `clearRun` removes it.
  * Host-thrown exceptions are modelled with `Except String`.
-/

namespace MCHook

/-- JS `Map.get`: first (unique) binding of the key, if present. -/
def mapGet {β : Type} (m : List (String × β)) (k : String) : Option β :=
  match m with
  | [] => none
  | (k1, v) :: rest => if k1 = k then some v else mapGet rest k

/-- JS `Map.set`: update the binding in place, or append a new one. -/
def mapSet {β : Type} (m : List (String × β)) (k : String) (v : β) : List (String × β) :=
  match m with
  | [] => [(k, v)]
  | (k1, v1) :: rest => if k1 = k then (k, v) :: rest else (k1, v1) :: mapSet rest k v

/-- An item stack as seen through `container.getItem`. -/
structure Item where
  typeId : String
  amount : Nat
deriving DecidableEq

/-- An inventory container: a fixed list of slots, each possibly empty. -/
abbrev Container := List (Option Item)

/-- A snapshot: item type id mapped to total held count (a JS `Map`). -/
abbrev Snapshot := List (String × Nat)

/-- One step of `snapshotInventory`'s loop body (accumulate one slot). -/
def snapStep (result : Snapshot) (s : Option Item) : Snapshot :=
  match s with
  | some item => mapSet result item.typeId ((mapGet result item.typeId).getD 0 + item.amount)
  | none => result

/-- `snapshotInventory` from `itemPickup.js`: iterate every slot, summing the
amounts of non-empty slots keyed by type id. -/
def snapshotInventory (inventory : Container) : Snapshot :=
  inventory.foldl snapStep []

/-- Amount a single slot contributes to the total for type `t`. -/
def slotAmount (t : String) (s : Option Item) : Nat :=
  match s with
  | some item => if item.typeId = t then item.amount else 0
  | none => 0

/-- Total amount of type `t` held across all slots of a container. -/
def totalOf (t : String) (C : Container) : Nat :=
  (C.map (slotAmount t)).sum

/-- Whether some non-empty slot holds an item of type `t`. -/
def hasType (t : String) (C : Container) : Bool :=
  C.any (fun s => match s with | some item => item.typeId == t | none => false)

/-- A positive inventory delta, interpreted as a pickup. -/
structure GainRecord where
  typeId : String
  amount : Nat
deriving DecidableEq

/-- The diff loop of the poll body in `itemPickup.js`: for every binding of
`current`, emit a gain when the amount strictly exceeds the previous amount
(`previous.get(typeId) || 0`). -/
def diff (previous : Snapshot) (current : Snapshot) : List GainRecord :=
  match current with
  | [] => []
  | (typeId, amount) :: rest =>
    if amount ≤ (mapGet previous typeId).getD 0 then diff previous rest
    else ⟨typeId, amount - (mapGet previous typeId).getD 0⟩ :: diff previous rest

/-- `removeItemsFromInventory` from `itemPickup.js`: scan slots in ascending
index order while some amount remains to remove; clear a matching slot whose
amount is at most the remainder, otherwise decrement it and stop. -/
def removeItemsFromInventory (typeId : String) (amountToRemove : Nat) (container : Container) : Container :=
  match container with
  | [] => []
  | slot :: rest =>
    if amountToRemove = 0 then slot :: rest
    else
      match slot with
      | none => none :: removeItemsFromInventory typeId amountToRemove rest
      | some item =>
        if item.typeId = typeId then
          (if item.amount ≤ amountToRemove then
            none :: removeItemsFromInventory typeId (amountToRemove - item.amount) rest
          else
            some { typeId := item.typeId, amount := item.amount - amountToRemove } :: rest)
        else some item :: removeItemsFromInventory typeId amountToRemove rest

/-- A registered listener: desired period and accumulated elapsed ticks.
The user callback itself is identified positionally (by its index in the
registration list); firing is recorded as an `Invocation`. -/
structure ListenerEntry where
  tick : Nat
  counter : Nat
deriving DecidableEq

/-- An online player as seen by the poll: name and inventory container
(`none` when the player lacks the `minecraft:inventory` component). -/
structure Player where
  name : String
  inventory : Option Container
deriving DecidableEq

/-- A record of one callback firing: which listener received which gain. -/
structure Invocation where
  listenerIdx : Nat
  playerName : String
  typeId : String
  amount : Nat
deriving DecidableEq

/-- The rate gate `listener.counter >= listener.tick`. -/
def fires (e : ListenerEntry) : Bool :=
  decide (e.tick ≤ e.counter)

/-- Effect of one gain record on one listener: fire-and-reset when the gate
passes, otherwise leave the entry unchanged. -/
def fireStep (e : ListenerEntry) : ListenerEntry :=
  if fires e then { tick := e.tick, counter := 0 } else e

/-- Invocations produced by fanning one gain record out over the listener
array (the inner `listeners.forEach`), with `i0` the index of the first entry. -/
def fireInvs (pname : String) (r : GainRecord) : List ListenerEntry → Nat → List Invocation
  | [], _ => []
  | e :: rest, i0 =>
    (if fires e then [⟨i0, pname, r.typeId, r.amount⟩] else []) ++ fireInvs pname r rest (i0 + 1)

/-- Fan a sequence of gain records out over the listeners in order, threading
the counter resets from record to record. -/
def fireRecords (pname : String) : List GainRecord → List ListenerEntry → List ListenerEntry × List Invocation
  | [], ls => (ls, [])
  | r :: rs, ls =>
    ((fireRecords pname rs (ls.map fireStep)).1,
      fireInvs pname r ls 0 ++ (fireRecords pname rs (ls.map fireStep)).2)

/-- Accumulated outcome of one poll cycle: updated listeners and player cache,
plus all gain records produced and all callback invocations made. -/
structure CycleAcc where
  listeners : List ListenerEntry
  cache : List (String × Snapshot)
  records : List GainRecord
  invocations : List Invocation

/-- The per-player part of the poll body: snapshot the inventory, diff against
the cached snapshot (empty when absent), fan the gains out, then overwrite the
cache entry with the fresh snapshot. -/
def processPlayers : List Player → List ListenerEntry → List (String × Snapshot) → CycleAcc
  | [], ls, cache => ⟨ls, cache, [], []⟩
  | p :: rest, ls, cache =>
    match p.inventory with
    | none => processPlayers rest ls cache
    | some inv =>
      let current := snapshotInventory inv
      let recs := diff ((mapGet cache p.name).getD []) current
      let after := processPlayers rest (fireRecords p.name recs ls).1 (mapSet cache p.name current)
      ⟨after.listeners, after.cache, recs ++ after.records,
        (fireRecords p.name recs ls).2 ++ after.invocations⟩

/-- `DEFAULT_TICK` from `itemPickup.js`. -/
def DEFAULT_TICK : Nat := 10

/-- The whole mutable state of the `ItemPickup` singleton, together with the
host scheduler's pool of live recurring-task handles (`activeHandles`) and a
fresh-handle counter. -/
structure PickupState where
  listeners : List ListenerEntry
  playerCache : List (String × Snapshot)
  systemIntervalId : Option Nat
  systemIntervalTick : Nat
  nextHandle : Nat
  activeHandles : List Nat
deriving DecidableEq

/-- `startSystemInterval`: no-op when an interval is already registered,
otherwise obtain a fresh handle from `system.runInterval`. -/
def startSystemInterval (st : PickupState) : PickupState :=
  match st.systemIntervalId with
  | some _ => st
  | none =>
    { st with
      systemIntervalId := some st.nextHandle
      activeHandles := st.activeHandles ++ [st.nextHandle]
      nextHandle := st.nextHandle + 1 }

/-- The `listeners.reduce((min, l) => Math.min(l.tick, min), DEFAULT_TICK)`
computation of `adjustSystemInterval`. -/
def minTickOf (ls : List ListenerEntry) : Nat :=
  ls.foldl (fun m e => min e.tick m) DEFAULT_TICK

/-- `adjustSystemInterval`: when the reduced minimum differs from the current
global tick, adopt it and, if an interval is live, `system.clearRun` the old
handle before starting a new interval. -/
def adjustSystemInterval (st : PickupState) : PickupState :=
  let minTick := minTickOf st.listeners
  if minTick ≠ st.systemIntervalTick then
    let st1 := { st with systemIntervalTick := minTick }
    match st1.systemIntervalId with
    | some h =>
      startSystemInterval
        { st1 with activeHandles := st1.activeHandles.filter (fun x => x != h), systemIntervalId := none }
    | none => st1
  else st

/-- `listen(callback, tick)`: validate the tick, append a listener with counter
0, recompute the interval and ensure it is running. The callback-is-a-function
check always passes in this model. -/
def listen (st : PickupState) (tick : Nat) : Except String PickupState :=
  if tick < 1 then Except.error "Tick must be a positive integer"
  else Except.ok (startSystemInterval (adjustSystemInterval
    { st with listeners := st.listeners ++ [{ tick := tick, counter := 0 }] }))

/-- `listen` as a total transition: a thrown validation error leaves the
state unchanged (the JS throw happens before any mutation). -/
def listenOr (st : PickupState) (tick : Nat) : PickupState :=
  match listen st tick with
  | Except.ok st1 => st1
  | Except.error _ => st

/-- One firing of the recurring poll (the `system.runInterval` closure):
advance every counter by the current global tick once, then snapshot, diff and
fan out for every online player. Returns the new state together with the gain
records produced and the callback invocations made in this cycle. -/
def pollStep (players : List Player) (st : PickupState) :
    PickupState × List GainRecord × List Invocation :=
  let acc := processPlayers players
    (st.listeners.map (fun e => { tick := e.tick, counter := e.counter + st.systemIntervalTick }))
    st.playerCache
  ({ st with listeners := acc.listeners, playerCache := acc.cache },
    acc.records, acc.invocations)

/-- The module-initialisation state of the `ItemPickup` singleton. -/
def initState : PickupState :=
  { listeners := []
    playerCache := []
    systemIntervalId := none
    systemIntervalTick := DEFAULT_TICK
    nextHandle := 0
    activeHandles := [] }

/-- States the singleton can be in: the initial state, closed under `listen`
registrations (valid or rejected) and firings of the recurring poll. -/
inductive Reachable : PickupState → Prop
  | init : Reachable initState
  | listen (st : PickupState) (tick : Nat) : Reachable st → Reachable (listenOr st tick)
  | poll (st : PickupState) (players : List Player) : Reachable st → Reachable (pollStep players st).1

/-- Specification helper: entry of one listener after `n` gain records have
been fanned out (its counter resets on firing, otherwise stays). -/
def iterFire (e : ListenerEntry) : Nat → ListenerEntry
  | 0 => e
  | n + 1 => iterFire (fireStep e) n

/-- Specification helper: number of times one listener fires while `n` gain
records are fanned out. -/
def countFor (e : ListenerEntry) : Nat → Nat
  | 0 => 0
  | n + 1 => (if fires e then 1 else 0) + countFor (fireStep e) n

/-- A `try body catch (e) log` block: the body's exception is converted into
log lines, never re-thrown. -/
def tryCatch (body : Except String Unit) (handler : String → List String) :
    Except String (Unit × List String) :=
  match body with
  | Except.ok u => Except.ok (u, [])
  | Except.error e => Except.ok ((), handler e)

/-- The `actions.remove()` closure of `itemPickup.js`: run
`removeItemsFromInventory` (whose container writes may throw, modelled by the
`underlying` outcome) inside try/catch, logging
`Failed to remove items: <message>` on failure. -/
def removeAction (underlying : Except String Unit) : Except String (Unit × List String) :=
  tryCatch underlying (fun e => ["Failed to remove items: " ++ e])

/-- The `actions.restore()` closure of `blockBreak.js`: reissue the `setblock`
command inside try/catch, logging `Failed to restore block: <message>` on
failure. -/
def restoreAction (underlying : Except String Unit) : Except String (Unit × List String) :=
  tryCatch underlying (fun e => ["Failed to restore block: " ++ e])

/-- A listener callback that invokes the remove action; it would re-throw if
the action itself threw. -/
def cbInvokingRemove (underlying : Except String Unit) : Unit → Except String Unit :=
  fun _ =>
    match removeAction underlying with
    | Except.ok _ => Except.ok ()
    | Except.error e => Except.error e

/-- `forEach` under exception semantics: run each callback in order; an
uncaught exception aborts the remaining callbacks and propagates. Returns how
many callbacks completed. -/
def forEachExcept : List (Unit → Except String Unit) → Except String Nat
  | [] => Except.ok 0
  | f :: rest =>
    match f () with
    | Except.error e => Except.error e
    | Except.ok _ =>
      match forEachExcept rest with
      | Except.error e => Except.error e
      | Except.ok n => Except.ok (n + 1)

/-- `HttpRequestMethod` of `@minecraft/server-net`, as used by `httpReq.js`. -/
inductive HttpRequestMethod where
  | get
  | post
  | put
  | delete
  | head
deriving DecidableEq

/-- A request body after destructuring: either a plain string, or an object
carried here as its `JSON.stringify` image (host serialization). -/
inductive JsBody where
  | strVal (s : String)
  | objVal (json : String)
deriving DecidableEq

/-- The configuration object accepted by `httpReq` after the
`{ url, method = "GET", data, body = data, headers = {} }` destructuring.
`none` models a JS-falsy / absent value. -/
structure HttpConfig where
  url : Option String
  method : String
  body : Option JsBody
  headers : List (String × String)
deriving DecidableEq

/-- The host-native request object assembled by `httpReq`. -/
structure HttpRequestModel where
  url : String
  method : HttpRequestMethod
  body : Option String
  headers : List (String × String)
deriving DecidableEq

/-- The host transport's response (`http.request` resolution). -/
structure HttpResponseHost where
  status : Nat
  body : Option String
  headers : List (String × String)
deriving DecidableEq

/-- The `{status, data, headers}` object `httpReq` resolves with; `data` is
the JSON-parsed body (`α` is the parse result type). -/
structure HttpResult (α : Type) where
  status : Nat
  data : Option α
  headers : List (String × String)
deriving DecidableEq

/-- The method `switch` of `httpReq.js`: uppercase, map known names,
default to GET. -/
def methodEnum (method : String) : HttpRequestMethod :=
  match method.toUpper with
  | "GET" => HttpRequestMethod.get
  | "POST" => HttpRequestMethod.post
  | "PUT" => HttpRequestMethod.put
  | "DELETE" => HttpRequestMethod.delete
  | "HEAD" => HttpRequestMethod.head
  | _ => HttpRequestMethod.get

/-- Key lookup over the headers object. -/
def hasHeader (hs : List (String × String)) (k : String) : Bool :=
  hs.any (fun p => p.1 == k)

/-- Request assembly of `httpReq.js` (everything before the `try`): method
mapping, body attachment (objects are JSON-serialized and receive a default
`Content-Type` when none is present), header attachment. -/
def buildRequest (url : String) (config : HttpConfig) : HttpRequestModel :=
  match config.body with
  | none =>
    { url := url, method := methodEnum config.method, body := none, headers := config.headers }
  | some (JsBody.strVal s) =>
    { url := url, method := methodEnum config.method, body := some s, headers := config.headers }
  | some (JsBody.objVal j) =>
    { url := url, method := methodEnum config.method, body := some j
      headers :=
        if hasHeader config.headers "Content-Type" || hasHeader config.headers "content-type"
        then config.headers
        else config.headers ++ [("Content-Type", "application/json")] }

/-- `httpReq(config)`: fail fast on a missing URL, build the request, await
the transport (`transport`), and map the response; the body is JSON-parsed
(`parse`) when present (`null` data otherwise); any exception thrown inside
the `try` (transport or parse failure) is rethrown as
`HTTP request failed: <message>`. -/
def httpReq {α : Type} (parse : String → Except String α)
    (transport : HttpRequestModel → Except String HttpResponseHost)
    (config : HttpConfig) : Except String (HttpResult α) :=
  match config.url with
  | none => Except.error "URL is required"
  | some url =>
    match transport (buildRequest url config) with
    | Except.error e => Except.error ("HTTP request failed: " ++ e)
    | Except.ok response =>
      match response.body with
      | none => Except.ok { status := response.status, data := none, headers := response.headers }
      | some b =>
        match parse b with
        | Except.ok v =>
          Except.ok { status := response.status, data := some v, headers := response.headers }
        | Except.error e => Except.error ("HTTP request failed: " ++ e)

/-- Witness input: an identity JSON parser. -/
def parseW : String → Except String String :=
  fun s => Except.ok s

/-- Witness input: a transport that always resolves with status 200 and
body `"x"`. -/
def transportOkW : HttpRequestModel → Except String HttpResponseHost :=
  fun _ => Except.ok { status := 200, body := some "x", headers := [] }

/-- Witness input: a transport that always rejects. -/
def transportFailW : HttpRequestModel → Except String HttpResponseHost :=
  fun _ => Except.error "boom"

/-- Witness input: a minimal GET configuration. -/
def configW : HttpConfig :=
  { url := some "u", method := "GET", body := none, headers := [] }

/-- Concrete players for the C1 counterexample: one player whose first
snapshot yields two gain records. -/
def playersTwoGains : List Player :=
  [{ name := "p", inventory := some [some ⟨"A", 2⟩, some ⟨"B", 3⟩] }]

/-- Concrete players for the C1 witness: one player yielding one gain record. -/
def playersOneGain : List Player :=
  [{ name := "p", inventory := some [some ⟨"A", 2⟩] }]

theorem mapGet_mapSet_self {β : Type} (m : List (String × β)) (k : String) (v : β) :
    mapGet (mapSet m k v) k = some v := by
  induction m with
  | nil => simp [mapGet, mapSet]
  | cons p rest ih =>
    obtain ⟨k1, v1⟩ := p
    by_cases h : k1 = k
    · simp [mapGet, mapSet, h]
    · simp [mapGet, mapSet, h, ih]

theorem mapGet_mapSet_of_ne {β : Type} (m : List (String × β)) (k t : String) (v : β)
    (h : k ≠ t) : mapGet (mapSet m k v) t = mapGet m t := by
  induction m with
  | nil => simp [mapGet, mapSet, h]
  | cons p rest ih =>
    obtain ⟨k1, v1⟩ := p
    by_cases h1 : k1 = k
    · subst h1
      simp [mapGet, mapSet, h]
    · by_cases h2 : k1 = t <;> simp [mapGet, mapSet, h1, h2, ih, Ne.symm h]

theorem totalOf_cons (t : String) (s : Option Item) (C : Container) :
    totalOf t (s :: C) = slotAmount t s + totalOf t C := by
  simp [totalOf]

theorem mapGet_snapshot_foldl (C : Container) (m : Snapshot) (t : String) :
    mapGet (C.foldl snapStep m) t =
      match mapGet m t with
      | some v => some (v + totalOf t C)
      | none => if hasType t C then some (totalOf t C) else none := by
  induction C generalizing m with
  | nil =>
    cases h : mapGet m t <;> simp [totalOf, hasType, h]
  | cons s rest ih =>
    cases s with
    | none =>
      rw [List.foldl_cons]
      cases h : mapGet m t <;>
        simp [snapStep, ih, h, totalOf_cons, slotAmount, hasType]
    | some item =>
      rw [List.foldl_cons]
      by_cases hit : item.typeId = t
      · have hget : mapGet (snapStep m (some item)) t =
            some ((mapGet m t).getD 0 + item.amount) := by
          simp only [snapStep, hit]
          exact mapGet_mapSet_self m t _
        rw [ih, hget]
        have hslot : slotAmount t (some item) = item.amount := by
          simp [slotAmount, hit]
        have htype : hasType t (some item :: rest) = true := by
          simp [hasType, hit]
        cases h : mapGet m t <;>
          simp [h, totalOf_cons, hslot, htype, Nat.add_assoc]
      · have hget : mapGet (snapStep m (some item)) t = mapGet m t := by
          simp only [snapStep]
          exact mapGet_mapSet_of_ne m item.typeId t _ hit
        rw [ih, hget]
        have hslot : slotAmount t (some item) = 0 := by
          simp [slotAmount, hit]
        have htype : hasType t (some item :: rest) = hasType t rest := by
          simp [hasType, hit]
        cases h : mapGet m t <;> simp [h, totalOf_cons, hslot, htype]

theorem mapGet_snapshotInventory (C : Container) (t : String) :
    mapGet (snapshotInventory C) t =
      if hasType t C then some (totalOf t C) else none := by
  have h := mapGet_snapshot_foldl C [] t
  simpa [snapshotInventory, mapGet] using h

theorem totalOf_perm {C C1 : Container} (h : C.Perm C1) (t : String) :
    totalOf t C = totalOf t C1 :=
  List.Perm.sum_eq (h.map (slotAmount t))

theorem hasType_perm {C C1 : Container} (h : C.Perm C1) (t : String) :
    hasType t C = hasType t C1 := by
  cases h1 : hasType t C <;> cases h2 : hasType t C1 <;> try rfl
  · rw [hasType, List.any_eq_false] at h1
    rw [hasType, List.any_eq_true] at h2
    obtain ⟨s, hs, hp⟩ := h2
    exact absurd hp (by simpa using h1 s (h.mem_iff.mpr hs))
  · rw [hasType, List.any_eq_true] at h1
    rw [hasType, List.any_eq_false] at h2
    obtain ⟨s, hs, hp⟩ := h1
    exact absurd hp (by simpa using h2 s (h.mem_iff.mp hs))

theorem diff_filter_of_not_mem (prev cur : Snapshot) (t : String)
    (h : t ∉ cur.map Prod.fst) :
    (diff prev cur).filter (fun r => r.typeId == t) = [] := by
  induction cur with
  | nil => simp [diff]
  | cons p rest ih =>
    obtain ⟨k, v⟩ := p
    have hk : k ≠ t := by
      intro hkt
      exact h (by simp [hkt])
    have hrest : t ∉ rest.map Prod.fst := by
      intro hmem
      exact h (by simp [hmem])
    by_cases hle : v ≤ (mapGet prev k).getD 0 <;>
      simp [diff, hle, hk, ih hrest]

theorem totalOf_removeItemsFromInventory (t : String) (n : Nat) (C : Container) :
    totalOf t (removeItemsFromInventory t n C) = totalOf t C - n := by
  induction C generalizing n with
  | nil => simp [removeItemsFromInventory, totalOf]
  | cons slot rest ih =>
    by_cases hn : n = 0
    · simp [removeItemsFromInventory, hn]
    · cases slot with
      | none =>
        simp [removeItemsFromInventory, hn, totalOf_cons, slotAmount, ih]
      | some item =>
        by_cases hit : item.typeId = t
        · by_cases hle : item.amount ≤ n
          · simp [removeItemsFromInventory, hn, hit, hle, totalOf_cons, slotAmount, ih]
            omega
          · simp [removeItemsFromInventory, hn, hit, hle, totalOf_cons, slotAmount]
            omega
        · simp [removeItemsFromInventory, hn, hit, totalOf_cons, slotAmount, ih]

/-- Claim C3: `diff(previous, current)` emits exactly one gain record, with
amount `current − previous` (previous defaulting to 0 when absent), for every
type whose current count strictly exceeds its previous count, and emits nothing
for types that decreased, disappeared, or stayed equal. Stated per type id `t`,
for a `current` snapshot with no duplicate keys (as `snapshotInventory` builds). -/
theorem diff_emits_exactly_gains (prev cur : Snapshot)
    (h : (cur.map Prod.fst).Nodup) (t : String) :
    (diff prev cur).filter (fun r => r.typeId == t) =
      match mapGet cur t with
      | none => []
      | some c =>
        if (mapGet prev t).getD 0 < c then [⟨t, c - (mapGet prev t).getD 0⟩] else [] := by
  induction cur with
  | nil => simp [diff, mapGet]
  | cons p rest ih =>
    obtain ⟨k, v⟩ := p
    rw [List.map_cons, List.nodup_cons] at h
    obtain ⟨hnm, hnd⟩ := h
    by_cases hk : k = t
    · subst hk
      have hrest : (diff prev rest).filter (fun r => r.typeId == k) = [] :=
        diff_filter_of_not_mem prev rest k hnm
      by_cases hle : v ≤ (mapGet prev k).getD 0
      · have : ¬ (mapGet prev k).getD 0 < v := by omega
        simp [diff, hle, mapGet, hrest, this]
      · have : (mapGet prev k).getD 0 < v := by omega
        simp [diff, hle, mapGet, hrest, this]
    · by_cases hle : v ≤ (mapGet prev k).getD 0 <;>
        simp [diff, hle, mapGet, hk, ih hnd]

/-- Claim C3 witness: `diff({A:5}, {A:8, B:1})` emits exactly one record for
type `A`, with amount 3. -/
theorem diff_emits_exactly_gains_witness :
    (diff [("A", 5)] [("A", 8), ("B", 1)]).filter (fun r => r.typeId == "A") =
      [⟨"A", 3⟩] := by
  have h := diff_emits_exactly_gains [("A", 5)] [("A", 8), ("B", 1)] (by decide) "A"
  exact h.trans (by decide)

/-- Claim C4: `snapshot(container)` maps each item type present in a non-empty
slot to the sum of that type's amounts over all slots, the resulting map is
invariant under permutation of the slots, and an empty container yields an
empty snapshot. -/
theorem snapshotInventory_sums_and_perm_invariant (C C1 : Container) (t : String)
    (hperm : C.Perm C1) (ht : hasType t C = true) :
    mapGet (snapshotInventory C) t = some (totalOf t C) ∧
    mapGet (snapshotInventory C) t = mapGet (snapshotInventory C1) t ∧
    snapshotInventory ([] : Container) = [] := by
  refine ⟨?_, ?_, rfl⟩
  · rw [mapGet_snapshotInventory, if_pos ht]
  · rw [mapGet_snapshotInventory, mapGet_snapshotInventory,
      hasType_perm hperm, totalOf_perm hperm]

/-- Claim C4 witness: slots `[(A,3), (B,2), (A,1)]` snapshot to 4 for type `A`,
and a permutation of the slots yields the same lookup. -/
theorem snapshotInventory_sums_and_perm_invariant_witness :
    mapGet (snapshotInventory [some ⟨"A", 3⟩, some ⟨"B", 2⟩, some ⟨"A", 1⟩]) "A" =
      some (totalOf "A" [some ⟨"A", 3⟩, some ⟨"B", 2⟩, some ⟨"A", 1⟩]) ∧
    mapGet (snapshotInventory [some ⟨"A", 3⟩, some ⟨"B", 2⟩, some ⟨"A", 1⟩]) "A" =
      mapGet (snapshotInventory [some ⟨"B", 2⟩, some ⟨"A", 1⟩, some ⟨"A", 3⟩]) "A" ∧
    snapshotInventory ([] : Container) = [] :=
  snapshotInventory_sums_and_perm_invariant
    [some ⟨"A", 3⟩, some ⟨"B", 2⟩, some ⟨"A", 1⟩]
    [some ⟨"B", 2⟩, some ⟨"A", 1⟩, some ⟨"A", 3⟩] "A" (by decide) (by decide)

/-- Claim C5: `removeItemsFromInventory` scans slots in ascending order,
clearing or decrementing matching slots until the requested amount is
exhausted; the total amount actually removed equals
`min(amountToRemove, total held)`, so over-requesting is not an error. -/
theorem removeItemsFromInventory_removes_min (t : String) (n : Nat) (C : Container) :
    totalOf t C - totalOf t (removeItemsFromInventory t n C) = min n (totalOf t C) := by
  have h := totalOf_removeItemsFromInventory t n C
  omega

theorem fireStep_of_not_fires (e : ListenerEntry) (h : fires e = false) : fireStep e = e := by
  simp [fireStep, h]

theorem fireStep_tick (e : ListenerEntry) : (fireStep e).tick = e.tick := by
  cases h : fires e <;> simp [fireStep, h]

theorem iterFire_of_not_fires (e : ListenerEntry) (n : Nat) (h : fires e = false) :
    iterFire e n = e := by
  induction n with
  | zero => rfl
  | succ k ih =>
    show iterFire (fireStep e) k = e
    rw [fireStep_of_not_fires e h]
    exact ih

theorem countFor_of_not_fires (e : ListenerEntry) (n : Nat) (h : fires e = false) :
    countFor e n = 0 := by
  induction n with
  | zero => rfl
  | succ k ih =>
    show (if fires e then 1 else 0) + countFor (fireStep e) k = 0
    rw [fireStep_of_not_fires e h, ih]
    simp [h]

theorem fires_reset (e : ListenerEntry) (h : 1 ≤ e.tick) :
    fires { tick := e.tick, counter := 0 } = false := by
  simp [fires]
  omega

theorem fireStep_fired (e : ListenerEntry) (hf : fires e = true) :
    fireStep e = { tick := e.tick, counter := 0 } := by
  simp [fireStep, hf]

theorem countFor_eq (e : ListenerEntry) (n : Nat) (h : 1 ≤ e.tick) :
    countFor e n = if fires e = true ∧ 0 < n then 1 else 0 := by
  cases n with
  | zero => simp [countFor]
  | succ k =>
    cases hf : fires e with
    | false =>
      rw [countFor_of_not_fires e (k + 1) hf]
      simp [hf]
    | true =>
      show (if fires e then 1 else 0) + countFor (fireStep e) k = _
      rw [fireStep_fired e hf, countFor_of_not_fires _ k (fires_reset e h)]
      simp [hf]

theorem iterFire_fired (e : ListenerEntry) (n : Nat) (h : 1 ≤ e.tick)
    (hf : fires e = true) (hn : 0 < n) :
    iterFire e n = { tick := e.tick, counter := 0 } := by
  cases n with
  | zero => omega
  | succ k =>
    show iterFire (fireStep e) k = _
    rw [fireStep_fired e hf, iterFire_of_not_fires _ k (fires_reset e h)]

theorem iterFire_add (e : ListenerEntry) (m n : Nat) :
    iterFire e (m + n) = iterFire (iterFire e m) n := by
  induction m generalizing e with
  | zero => simp [iterFire]
  | succ k ih =>
    have h1 : k + 1 + n = (k + n) + 1 := by omega
    rw [h1]
    show iterFire (fireStep e) (k + n) = iterFire (iterFire (fireStep e) k) n
    exact ih (fireStep e)

theorem iterFire_tick (e : ListenerEntry) (n : Nat) : (iterFire e n).tick = e.tick := by
  induction n generalizing e with
  | zero => rfl
  | succ k ih =>
    show (iterFire (fireStep e) k).tick = e.tick
    rw [ih (fireStep e), fireStep_tick]

theorem countFor_add (e : ListenerEntry) (m n : Nat) :
    countFor e (m + n) = countFor e m + countFor (iterFire e m) n := by
  induction m generalizing e with
  | zero => simp [countFor, iterFire]
  | succ k ih =>
    have h1 : k + 1 + n = (k + n) + 1 := by omega
    rw [h1]
    show (if fires e then 1 else 0) + countFor (fireStep e) (k + n) =
      ((if fires e then 1 else 0) + countFor (fireStep e) k) + countFor (iterFire (fireStep e) k) n
    rw [ih (fireStep e)]
    omega

theorem countP_fireInvs (pname : String) (r : GainRecord) (ls : List ListenerEntry)
    (i0 i : Nat) :
    (fireInvs pname r ls i0).countP (fun v => v.listenerIdx == i) =
      match ls[i - i0]? with
      | some e => if i0 ≤ i ∧ fires e = true then 1 else 0
      | none => 0 := by
  induction ls generalizing i0 with
  | nil => simp [fireInvs]
  | cons e rest ih =>
    rw [fireInvs, List.countP_append]
    have hhead : (if fires e then [(⟨i0, pname, r.typeId, r.amount⟩ : Invocation)] else []).countP
        (fun v => v.listenerIdx == i) = if fires e = true ∧ i0 = i then 1 else 0 := by
      cases hf : fires e <;> by_cases hi : i0 = i <;> simp [hf, hi]
    rw [hhead, ih]
    rcases Nat.lt_trichotomy i i0 with hlt | heq | hgt
    · have e1 : i - i0 = 0 := by omega
      have e2 : ¬ i0 ≤ i := by omega
      have e3 : ¬ i0 + 1 ≤ i := by omega
      have e4 : ¬ i0 = i := by omega
      rw [e1]
      cases h5 : rest[i - (i0 + 1)]? <;> simp [e2, e3, e4, h5]
    · subst heq
      have e1 : i - i = 0 := by omega
      rw [e1]
      cases h5 : rest[i - (i + 1)]? <;> cases hf : fires e <;> simp [hf, h5]
    · have e1 : i - i0 = (i - (i0 + 1)) + 1 := by omega
      have e2 : i0 ≤ i := by omega
      have e3 : i0 + 1 ≤ i := by omega
      have e4 : ¬ i0 = i := by omega
      rw [e1]
      cases h5 : rest[i - (i0 + 1)]? <;> simp [e2, e3, e4, h5]

theorem fireRecords_listeners (pname : String) (recs : List GainRecord)
    (ls : List ListenerEntry) (i : Nat) :
    (fireRecords pname recs ls).1[i]? = (ls[i]?).map (fun e => iterFire e recs.length) := by
  induction recs generalizing ls with
  | nil => cases h : ls[i]? <;> simp [fireRecords, iterFire, h]
  | cons r rs ih =>
    rw [fireRecords]
    show (fireRecords pname rs (ls.map fireStep)).1[i]? = _
    rw [ih, List.getElem?_map]
    cases h : ls[i]? <;> simp [h, iterFire]

theorem fireRecords_countP (pname : String) (recs : List GainRecord)
    (ls : List ListenerEntry) (i : Nat) :
    (fireRecords pname recs ls).2.countP (fun v => v.listenerIdx == i) =
      match ls[i]? with
      | some e => countFor e recs.length
      | none => 0 := by
  induction recs generalizing ls with
  | nil => cases h : ls[i]? <;> simp [fireRecords, countFor, h]
  | cons r rs ih =>
    rw [fireRecords]
    show (fireInvs pname r ls 0 ++ (fireRecords pname rs (ls.map fireStep)).2).countP
      (fun v => v.listenerIdx == i) = _
    rw [List.countP_append, countP_fireInvs, ih, List.getElem?_map]
    cases h : ls[i]? <;> simp [h, countFor]

theorem processPlayers_listeners (players : List Player) (ls : List ListenerEntry)
    (cache : List (String × Snapshot)) (i : Nat) :
    (processPlayers players ls cache).listeners[i]? =
      (ls[i]?).map (fun e => iterFire e (processPlayers players ls cache).records.length) := by
  induction players generalizing ls cache with
  | nil => cases h : ls[i]? <;> simp [processPlayers, iterFire, h]
  | cons p rest ih =>
    cases hp : p.inventory with
    | none => simp [processPlayers, hp, ih]
    | some inv =>
      simp only [processPlayers, hp]
      rw [ih, fireRecords_listeners]
      cases h : ls[i]? <;> simp [h, iterFire_add]

theorem processPlayers_countP (players : List Player) (ls : List ListenerEntry)
    (cache : List (String × Snapshot)) (i : Nat) :
    (processPlayers players ls cache).invocations.countP (fun v => v.listenerIdx == i) =
      match ls[i]? with
      | some e => countFor e (processPlayers players ls cache).records.length
      | none => 0 := by
  induction players generalizing ls cache with
  | nil => cases h : ls[i]? <;> simp [processPlayers, countFor, h]
  | cons p rest ih =>
    cases hp : p.inventory with
    | none => simp [processPlayers, hp, ih]
    | some inv =>
      simp only [processPlayers, hp]
      rw [List.countP_append, fireRecords_countP, ih, fireRecords_listeners]
      cases h : ls[i]? <;> simp [h, countFor_add]

theorem listeners_map_tick_processPlayers (players : List Player) (ls : List ListenerEntry)
    (cache : List (String × Snapshot)) :
    (processPlayers players ls cache).listeners.map (fun e => e.tick) =
      ls.map (fun e => e.tick) := by
  apply List.ext_getElem?
  intro i
  rw [List.getElem?_map, List.getElem?_map, processPlayers_listeners]
  cases h : ls[i]? <;> simp [h, iterFire_tick]

theorem minTickOf_eq_foldl_map (ls : List ListenerEntry) :
    minTickOf ls = (ls.map (fun e => e.tick)).foldl (fun m t => min t m) DEFAULT_TICK := by
  show ls.foldl (fun m e => min e.tick m) DEFAULT_TICK = _
  exact (List.foldl_map (fun e : ListenerEntry => e.tick) (fun m t => min t m)
    ls DEFAULT_TICK).symm

theorem minTickOf_congr (ls1 ls2 : List ListenerEntry)
    (h : ls1.map (fun e => e.tick) = ls2.map (fun e => e.tick)) :
    minTickOf ls1 = minTickOf ls2 := by
  rw [minTickOf_eq_foldl_map, minTickOf_eq_foldl_map, h]

theorem startSystemInterval_listeners (st : PickupState) :
    (startSystemInterval st).listeners = st.listeners := by
  cases h : st.systemIntervalId <;> simp [startSystemInterval, h]

theorem startSystemInterval_tick (st : PickupState) :
    (startSystemInterval st).systemIntervalTick = st.systemIntervalTick := by
  cases h : st.systemIntervalId <;> simp [startSystemInterval, h]

theorem startSystemInterval_handles (st : PickupState)
    (h : st.activeHandles = (match st.systemIntervalId with | some hd => [hd] | none => [])) :
    (startSystemInterval st).activeHandles =
      (match (startSystemInterval st).systemIntervalId with | some hd => [hd] | none => []) := by
  cases hid : st.systemIntervalId with
  | some x => simp [startSystemInterval, hid, hid ▸ h]
  | none => simp [startSystemInterval, hid, hid ▸ h]

theorem adjustSystemInterval_listeners (st : PickupState) :
    (adjustSystemInterval st).listeners = st.listeners := by
  by_cases hc : minTickOf st.listeners ≠ st.systemIntervalTick
  · cases hid : st.systemIntervalId <;>
      simp [adjustSystemInterval, hc, hid, startSystemInterval]
  · simp [adjustSystemInterval, hc]

theorem adjustSystemInterval_tick (st : PickupState) :
    (adjustSystemInterval st).systemIntervalTick = minTickOf st.listeners := by
  by_cases hc : minTickOf st.listeners ≠ st.systemIntervalTick
  · cases hid : st.systemIntervalId <;>
      simp [adjustSystemInterval, hc, hid, startSystemInterval]
  · simp [adjustSystemInterval, hc]
    exact (not_ne_iff.mp hc).symm

theorem adjustSystemInterval_handles (st : PickupState)
    (h : st.activeHandles = (match st.systemIntervalId with | some hd => [hd] | none => [])) :
    (adjustSystemInterval st).activeHandles =
      (match (adjustSystemInterval st).systemIntervalId with | some hd => [hd] | none => []) := by
  by_cases hc : minTickOf st.listeners ≠ st.systemIntervalTick
  · cases hid : st.systemIntervalId with
    | none => simp [adjustSystemInterval, hc, hid, hid ▸ h]
    | some x => simp [adjustSystemInterval, hc, hid, hid ▸ h, startSystemInterval]
  · simp [adjustSystemInterval, hc, h]

theorem all_tick_ge_of_map_eq (ls1 ls2 : List ListenerEntry)
    (h : ls1.map (fun e => e.tick) = ls2.map (fun e => e.tick))
    (h2 : ∀ e ∈ ls2, 1 ≤ e.tick) : ∀ e ∈ ls1, 1 ≤ e.tick := by
  intro e he
  have hm : e.tick ∈ ls1.map (fun e => e.tick) := List.mem_map_of_mem _ he
  rw [h] at hm
  obtain ⟨e2, he2, heq⟩ := List.mem_map.mp hm
  rw [← heq]
  exact h2 e2 he2

theorem pollStep_state_fields (players : List Player) (st : PickupState) :
    (pollStep players st).1.systemIntervalTick = st.systemIntervalTick ∧
    (pollStep players st).1.systemIntervalId = st.systemIntervalId ∧
    (pollStep players st).1.activeHandles = st.activeHandles ∧
    (pollStep players st).1.listeners =
      (processPlayers players
        (st.listeners.map (fun e => { tick := e.tick, counter := e.counter + st.systemIntervalTick }))
        st.playerCache).listeners := by
  refine ⟨rfl, rfl, rfl, rfl⟩

/-- The three state invariants of the `ItemPickup` singleton: the global tick
is the reduce-with-default minimum of the listeners' periods, the live-handle
pool mirrors `systemIntervalId`, and every registered period is at least 1. -/
theorem reachable_inv (st : PickupState) (h : Reachable st) :
    st.systemIntervalTick = minTickOf st.listeners ∧
    st.activeHandles = (match st.systemIntervalId with | some hd => [hd] | none => []) ∧
    (∀ e ∈ st.listeners, 1 ≤ e.tick) := by
  induction h with
  | init =>
    refine ⟨rfl, rfl, ?_⟩
    intro e he
    simp [initState] at he
  | listen st0 tick h0 ih =>
    obtain ⟨ihTick, ihHandles, ihGe⟩ := ih
    by_cases hv : tick < 1
    · simpa [listenOr, listen, hv] using ⟨ihTick, ihHandles, ihGe⟩
    · have hstep : listenOr st0 tick = startSystemInterval (adjustSystemInterval
          { st0 with listeners := st0.listeners ++ [{ tick := tick, counter := 0 }] }) := by
        simp [listenOr, listen, hv]
      rw [hstep]
      refine ⟨?_, ?_, ?_⟩
      · rw [startSystemInterval_tick, startSystemInterval_listeners,
          adjustSystemInterval_listeners, adjustSystemInterval_tick]
      · apply startSystemInterval_handles
        apply adjustSystemInterval_handles
        exact ihHandles
      · rw [startSystemInterval_listeners, adjustSystemInterval_listeners]
        intro e he
        rcases List.mem_append.mp he with h1 | h1
        · exact ihGe e h1
        · simp at h1
          rw [h1]
          show 1 ≤ tick
          omega
  | poll st0 players h0 ih =>
    obtain ⟨ihTick, ihHandles, ihGe⟩ := ih
    obtain ⟨f1, f2, f3, f4⟩ := pollStep_state_fields players st0
    have hmap : (pollStep players st0).1.listeners.map (fun e => e.tick) =
        st0.listeners.map (fun e => e.tick) := by
      rw [f4, listeners_map_tick_processPlayers, List.map_map]
      rfl
    refine ⟨?_, ?_, ?_⟩
    · rw [f1, ihTick, minTickOf_congr _ _ hmap]
    · rw [f3, f2, ihHandles]
    · exact all_tick_ge_of_map_eq _ _ hmap ihGe

theorem mem_of_getElem_opt {α : Type} (l : List α) (i : Nat) (a : α)
    (h : l[i]? = some a) : a ∈ l := by
  induction l generalizing i with
  | nil => simp at h
  | cons x rest ih =>
    cases i with
    | zero =>
      rw [List.getElem?_cons_zero] at h
      rw [Option.some.injEq] at h
      rw [← h]
      exact List.mem_cons_self x rest
    | succ k =>
      rw [List.getElem?_cons_succ] at h
      exact List.mem_cons_of_mem x (ih k h)

theorem foldr_min_min (l : List Nat) (a b : Nat) :
    l.foldr min (min a b) = min a (l.foldr min b) := by
  induction l with
  | nil => rfl
  | cons c rest ih =>
    show min c (rest.foldr min (min a b)) = min a (min c (rest.foldr min b))
    rw [ih, min_left_comm]

theorem foldl_min_eq_foldr (l : List Nat) (a : Nat) :
    l.foldl (fun m t => min t m) a = l.foldr min a := by
  induction l generalizing a with
  | nil => rfl
  | cons t rest ih =>
    show rest.foldl (fun m t2 => min t2 m) (min t a) = min t (rest.foldr min a)
    rw [ih, foldr_min_min]

/-- Claim C2 (amended): at every reachable moment, the scheduler's global poll
period equals the minimum of the default period (`DEFAULT_TICK` = 10) together
with all registered listeners' periods — the reduce over the listeners is
seeded with the default, so a period larger than 10 never raises the global
tick. With no listeners registered this is the default. -/
theorem systemIntervalTick_eq_min_with_default (st : PickupState) (h : Reachable st) :
    st.systemIntervalTick = (st.listeners.map (fun e => e.tick)).foldr min DEFAULT_TICK := by
  have h1 := (reachable_inv st h).1
  rw [h1, minTickOf_eq_foldl_map, foldl_min_eq_foldr]

/-- Claim C2 witness: after registering a listener with period 3, the global
tick equals the seeded minimum (namely 3). -/
theorem systemIntervalTick_eq_min_with_default_witness :
    (listenOr initState 3).systemIntervalTick =
      ((listenOr initState 3).listeners.map (fun e => e.tick)).foldr min DEFAULT_TICK :=
  systemIntervalTick_eq_min_with_default (listenOr initState 3)
    (Reachable.listen initState 3 Reachable.init)

/-- Claim C2 counterexample: registering a single listener with period 20
leaves the global poll period at the default 10 — it does not equal the
minimum (20) of the registered listeners' periods, because the reduce over
listener periods is seeded with `DEFAULT_TICK`. -/
theorem systemIntervalTick_not_min_of_periods :
    (listenOr initState 20).listeners.map (fun e => e.tick) = [20] ∧
    (listenOr initState 20).systemIntervalTick = 10 ∧
    (10 : Nat) ≠ 20 := by
  refine ⟨by decide, by decide, by omega⟩

/-- Claim C6: at most one recurring poll is live at any reachable moment: the
restart path clears the old handle before starting the new interval, and the
host's pool of live timer handles never holds more than one handle. -/
theorem activeHandles_at_most_one (st : PickupState) (h : Reachable st) :
    st.activeHandles.length ≤ 1 := by
  have h2 := (reachable_inv st h).2.1
  rw [h2]
  cases st.systemIntervalId <;> simp

/-- Claim C6 witness: after a registration that starts (and possibly restarts)
the interval, at most one handle is live. -/
theorem activeHandles_at_most_one_witness :
    (listenOr (listenOr initState 20) 5).activeHandles.length ≤ 1 :=
  activeHandles_at_most_one (listenOr (listenOr initState 20) 5)
    (Reachable.listen (listenOr initState 20) 5 (Reachable.listen initState 20 Reachable.init))

/-- Claim C10: within one poll cycle each listener's callback is invoked at
most once in total, however many gain records the cycle produces across all
players: the counter is advanced once per cycle, reset on the first firing,
and every registered period is at least 1, so the reset blocks further
firings in the same cycle. -/
theorem pollStep_at_most_once_per_cycle (st : PickupState) (h : Reachable st)
    (players : List Player) (i : Nat) :
    ((pollStep players st).2.2).countP (fun v => v.listenerIdx == i) ≤ 1 := by
  have hticks := (reachable_inv st h).2.2
  show ((processPlayers players
    (st.listeners.map (fun e => { tick := e.tick, counter := e.counter + st.systemIntervalTick }))
    st.playerCache).invocations).countP (fun v => v.listenerIdx == i) ≤ 1
  rw [processPlayers_countP]
  rw [List.getElem?_map]
  cases h1 : st.listeners[i]? with
  | none => simp
  | some e0 =>
    have ht : 1 ≤ e0.tick := hticks e0 (mem_of_getElem_opt _ i e0 h1)
    dsimp only [Option.map_some']
    rw [countFor_eq _ _ (by simpa using ht)]
    split <;> omega

/-- Claim C10 witness: a cycle with two gain records invokes the single
registered listener at most once. -/
theorem pollStep_at_most_once_per_cycle_witness :
    ((pollStep playersTwoGains (listenOr initState 5)).2.2).countP
      (fun v => v.listenerIdx == 0) ≤ 1 :=
  pollStep_at_most_once_per_cycle (listenOr initState 5)
    (Reachable.listen initState 5 Reachable.init) playersTwoGains 0

/-- Claim C1 (amended): during one poll cycle, a listener whose counter (after
the once-per-cycle increment by the global tick) has reached its period is
invoked exactly once for the whole cycle — at the first gain record — rather
than once per gain record: the counter is reset to 0 immediately after firing,
which (periods being at least 1) blocks the remaining records of the cycle; a
listener whose counter has not reached its period is not invoked at all. -/
theorem pollStep_fires_once_at_first_record (st : PickupState) (h : Reachable st)
    (players : List Player) (i : Nat) (e : ListenerEntry)
    (he : st.listeners[i]? = some e) :
    (((pollStep players st).2.2).countP (fun v => v.listenerIdx == i) =
      if e.tick ≤ e.counter + st.systemIntervalTick ∧ (pollStep players st).2.1 ≠ [] then 1
      else 0) ∧
    (e.tick ≤ e.counter + st.systemIntervalTick ∧ (pollStep players st).2.1 ≠ [] →
      (pollStep players st).1.listeners[i]? = some { tick := e.tick, counter := 0 }) := by
  have hticks := (reachable_inv st h).2.2
  have ht1 : 1 ≤ e.tick := hticks e (mem_of_getElem_opt _ i e he)
  have h0 : (st.listeners.map
      (fun e2 => { tick := e2.tick, counter := e2.counter + st.systemIntervalTick } : ListenerEntry → ListenerEntry))[i]? =
      some { tick := e.tick, counter := e.counter + st.systemIntervalTick } := by
    rw [List.getElem?_map, he]
    rfl
  constructor
  · show ((processPlayers players
      (st.listeners.map (fun e2 => { tick := e2.tick, counter := e2.counter + st.systemIntervalTick }))
      st.playerCache).invocations).countP (fun v => v.listenerIdx == i) = _
    rw [processPlayers_countP, h0]
    dsimp only
    rw [countFor_eq _ _ (by simpa using ht1)]
    have hiff : (fires { tick := e.tick, counter := e.counter + st.systemIntervalTick } = true ∧
        0 < (processPlayers players
          (st.listeners.map (fun e2 => { tick := e2.tick, counter := e2.counter + st.systemIntervalTick }))
          st.playerCache).records.length) ↔
        (e.tick ≤ e.counter + st.systemIntervalTick ∧ (pollStep players st).2.1 ≠ []) := by
      constructor
      · intro ⟨ha, hb⟩
        refine ⟨by simpa [fires] using ha, ?_⟩
        show (processPlayers players
          (st.listeners.map (fun e2 => { tick := e2.tick, counter := e2.counter + st.systemIntervalTick }))
          st.playerCache).records ≠ []
        exact List.length_pos.mp hb
      · intro ⟨ha, hb⟩
        refine ⟨by simpa [fires] using ha, ?_⟩
        apply List.length_pos.mpr
        exact hb
    rw [if_congr hiff rfl rfl]
  · intro ⟨ha, hb⟩
    show (processPlayers players
      (st.listeners.map (fun e2 => { tick := e2.tick, counter := e2.counter + st.systemIntervalTick }))
      st.playerCache).listeners[i]? = _
    rw [processPlayers_listeners, h0]
    dsimp only [Option.map_some']
    have hfe : fires { tick := e.tick, counter := e.counter + st.systemIntervalTick } = true := by
      simp [fires]
      exact ha
    exact congrArg some (iterFire_fired _ _ (by simpa using ht1) hfe (List.length_pos.mpr hb))

/-- Claim C1 witness: with one listener of period 10 and a cycle producing one
gain record, the listener fires exactly once. -/
theorem pollStep_fires_once_at_first_record_witness :
    ((pollStep playersOneGain (listenOr initState 10)).2.2).countP
      (fun v => v.listenerIdx == 0) = 1 := by
  have h := (pollStep_fires_once_at_first_record (listenOr initState 10)
    (Reachable.listen initState 10 Reachable.init) playersOneGain 0
    { tick := 10, counter := 0 } (by decide)).1
  exact h.trans (by decide)

/-- Claim C1 counterexample: a single poll cycle that produces two gain
records (a first snapshot `{A:2, B:3}` against an empty baseline) invokes the
eligible listener only once, not once per record — the reset to 0 after the
first firing blocks the second record of the same cycle. -/
theorem pollStep_not_once_per_record :
    ((pollStep playersTwoGains (listenOr initState 10)).2.1).length = 2 ∧
    ((pollStep playersTwoGains (listenOr initState 10)).2.2).countP
      (fun v => v.listenerIdx == 0) = 1 ∧
    (1 : Nat) ≠ 2 := by
  refine ⟨by decide, by decide, by omega⟩

/-- Claim C7: a failure inside the `remove()` action (or the block `restore()`
action) is caught and logged, never propagated; in particular, whatever
container-write outcomes the listeners' `remove()` calls hit, every listener's
callback completes, so all of them receive the gain record. -/
theorem remove_failure_isolated (outcomes : List (Except String Unit)) (msg : String) :
    forEachExcept (outcomes.map cbInvokingRemove) = Except.ok outcomes.length ∧
    removeAction (Except.error msg) = Except.ok ((), ["Failed to remove items: " ++ msg]) ∧
    restoreAction (Except.error msg) = Except.ok ((), ["Failed to restore block: " ++ msg]) := by
  refine ⟨?_, rfl, rfl⟩
  induction outcomes with
  | nil => rfl
  | cons o rest ih =>
    cases o with
    | ok u => simp [forEachExcept, cbInvokingRemove, removeAction, tryCatch, ih]
    | error e => simp [forEachExcept, cbInvokingRemove, removeAction, tryCatch, ih]

/-- Claim C8: when the transport call succeeds, `httpReq` resolves with
`{status, data, headers}` taken from the transport response, `data` being the
JSON-parsed body when one is present and `null` when the body is absent. -/
theorem httpReq_success_shape {α : Type} (parse : String → Except String α)
    (transport : HttpRequestModel → Except String HttpResponseHost)
    (config : HttpConfig) (url : String) (response : HttpResponseHost)
    (hu : config.url = some url)
    (ht : transport (buildRequest url config) = Except.ok response) :
    (response.body = none →
      httpReq parse transport config =
        Except.ok { status := response.status, data := none, headers := response.headers }) ∧
    (∀ b v, response.body = some b → parse b = Except.ok v →
      httpReq parse transport config =
        Except.ok { status := response.status, data := some v, headers := response.headers }) := by
  constructor
  · intro hb
    simp [httpReq, hu, ht, hb]
  · intro b v hb hv
    simp [httpReq, hu, ht, hb, hv]

/-- Claim C8 witness: a transport resolving with status 200 and body `"x"`
makes `httpReq` resolve with status 200 and parsed data `"x"`. -/
theorem httpReq_success_shape_witness :
    httpReq parseW transportOkW configW =
      Except.ok { status := 200, data := some "x", headers := [] } :=
  (httpReq_success_shape parseW transportOkW configW "u"
    { status := 200, body := some "x", headers := [] } rfl rfl).2 "x" "x" rfl rfl

theorem wrapped_ne_missing_url (e : String) :
    "HTTP request failed: " ++ e ≠ "URL is required" := by
  intro h
  have hlen := congrArg String.length h
  rw [String.length_append] at hlen
  have h1 : ("HTTP request failed: " : String).length = 21 := rfl
  have h2 : ("URL is required" : String).length = 15 := rfl
  omega

/-- Claim C9: `httpReq` raises the missing-URL error exactly when the url is
absent — in which case the transport is never consulted — and a transport
failure surfaces as the single wrapped error carrying the original message
(no retry: the failing outcome is final). -/
theorem httpReq_missing_url_and_wrap {α : Type} (parse : String → Except String α)
    (transport : HttpRequestModel → Except String HttpResponseHost)
    (config : HttpConfig) :
    (config.url = none →
      httpReq parse transport config = Except.error "URL is required" ∧
      ∀ transport2, httpReq parse transport config = httpReq parse transport2 config) ∧
    (httpReq parse transport config = Except.error "URL is required" → config.url = none) ∧
    (∀ url e, config.url = some url →
      transport (buildRequest url config) = Except.error e →
      httpReq parse transport config = Except.error ("HTTP request failed: " ++ e)) := by
  refine ⟨?_, ?_, ?_⟩
  · intro hu
    exact ⟨by simp [httpReq, hu], fun transport2 => by simp [httpReq, hu]⟩
  · intro hres
    cases hu : config.url with
    | none => rfl
    | some url =>
      exfalso
      cases ht : transport (buildRequest url config) with
      | error e =>
        simp [httpReq, hu, ht] at hres
        exact wrapped_ne_missing_url e hres
      | ok response =>
        cases hb : response.body with
        | none => simp [httpReq, hu, ht, hb] at hres
        | some b =>
          cases hv : parse b with
          | ok v => simp [httpReq, hu, ht, hb, hv] at hres
          | error e =>
            simp [httpReq, hu, ht, hb, hv] at hres
            exact wrapped_ne_missing_url e hres
  · intro url e hu ht
    simp [httpReq, hu, ht]

/-- Claim C9 witness: with a url present and a transport rejecting with
`boom`, `httpReq` rejects with the single wrapped error. -/
theorem httpReq_missing_url_and_wrap_witness :
    httpReq parseW transportFailW configW =
      Except.error ("HTTP request failed: " ++ "boom") :=
  (httpReq_missing_url_and_wrap parseW transportFailW configW).2.2 "u" "boom" rfl rfl

end MCHook
